import Mathlib

/-!
Shallow embedding of `src/real_estate_agents/matching_agent/agent.py`
(the multi-criteria scoring and ranking engine of the Real-Estate-Agent
repository) together with proofs about the claims of its specification.

Python floats are modelled as exact rationals (`ℚ`), Python strings as
Lean `String` or `List Char`.  Fallible Python code (raising `KeyError`,
`ValueError` or `ZeroDivisionError`) is modelled with `Except PyErr`.
-/

/-- Python exceptions that can arise in the matching agent. -/
inductive PyErr where
  | keyError (key : String)
  | valueError
  | zeroDivisionError
deriving Repr, DecidableEq

/-- Python division: raises `ZeroDivisionError` on a zero denominator. -/
def pydiv (a b : ℚ) : Except PyErr ℚ :=
  if b = 0 then .error .zeroDivisionError else .ok (a / b)

/-- Python `d[key]`: raises `KeyError key` when the key is absent.
A dict field is modelled as an `Option`. -/
def pyGet (o : Option α) (key : String) : Except PyErr α :=
  match o with
  | none => .error (.keyError key)
  | some v => .ok v

/-- Python `str.strip()` restricted to whitespace. -/
def pyStrip (cs : List Char) : List Char :=
  ((cs.dropWhile Char.isWhitespace).reverse.dropWhile Char.isWhitespace).reverse

/-- Value of a run of decimal digit characters (most significant first). -/
def digitsVal (cs : List Char) : ℕ :=
  cs.foldl (fun a c => a * 10 + (c.toNat - 48)) 0

/-- Split a character list on a separator character, keeping empty pieces,
as Python `str.split(sep)` does for a one-character separator. -/
def splitOnChar (sep : Char) : List Char → List (List Char)
  | [] => [[]]
  | c :: rest =>
    let r := splitOnChar sep rest
    if c = sep then [] :: r
    else
      match r with
      | [] => [[c]]
      | p :: ps => (c :: p) :: ps

/-- Whether the two-character pattern `a b` occurs (contiguously) in the list:
models Python `"ab" in s` for a two-character pattern. -/
def containsPair (a b : Char) : List Char → Bool
  | [] => false
  | [_] => false
  | c :: d :: rest => if c = a ∧ d = b then true else containsPair a b (d :: rest)

/-- Remove every (left-to-right, non-overlapping) occurrence of the
two-character pattern `a b`: models Python `s.replace("ab", "")`. -/
def removePair (a b : Char) : List Char → List Char
  | [] => []
  | [c] => [c]
  | c :: d :: rest =>
    if c = a ∧ d = b then removePair a b rest
    else c :: removePair a b (d :: rest)

/-- Core of Python `float()` on an unsigned numeral: decimal digits with an
optional decimal point (`"12"`, `"12."`, `".5"`, `"1.5"`).  Exotic float
syntax (exponents, `inf`, `nan`, underscores) is not used by this program
and is treated as unparsable. -/
def pyfloatCore (cs : List Char) : Option ℚ :=
  match splitOnChar '.' cs with
  | [intP] =>
    if intP ≠ [] ∧ intP.all Char.isDigit then some ((digitsVal intP : ℚ)) else none
  | [intP, fracP] =>
    if (intP ≠ [] ∨ fracP ≠ []) ∧ intP.all Char.isDigit ∧ fracP.all Char.isDigit then
      some ((digitsVal intP : ℚ) + (digitsVal fracP : ℚ) / (10 : ℚ) ^ fracP.length)
    else none
  | _ => none

/-- Python `float(s)`: strips whitespace, accepts an optional sign, and
raises `ValueError` on anything unparsable. -/
def pyfloatList (cs0 : List Char) : Except PyErr ℚ :=
  let cs := pyStrip cs0
  let isNeg : Bool := cs.head? == some '-'
  let body := if isNeg || (cs.head? == some '+') then cs.tail else cs
  match pyfloatCore body with
  | none => .error .valueError
  | some q => .ok (if isNeg then -q else q)

/-- Budget-text normalization, translated from the beginning of
`MatchingAgent.calculate_matching_score` (lines 189-201 of `agent.py`):
when the text is non-empty and contains the unit marker `万` it is
stripped of that marker and then either split on `-` into two float
bounds (only when the split has exactly two pieces), or, containing
`以内`, parsed into an upper bound only; every other shape leaves both
bounds unset.  `float()` failures propagate as `ValueError`. -/
def parseBudget (budget : String) : Except PyErr (Option ℚ × Option ℚ) :=
  let cs := budget.toList
  if cs = [] then .ok (none, none)
  else if '万' ∈ cs then
    let bs := cs.filter (fun c => c ≠ '万')
    if '-' ∈ bs then
      match splitOnChar '-' bs with
      | [p0, p1] =>
        match pyfloatList (pyStrip p0) with
        | .error e => .error e
        | .ok a =>
          match pyfloatList (pyStrip p1) with
          | .error e => .error e
          | .ok b => .ok (some (a * 10000), some (b * 10000))
      | _ => .ok (none, none)
    else if containsPair '以' '内' bs then
      match pyfloatList (pyStrip (removePair '以' '内' bs)) with
      | .error e => .error e
      | .ok b => .ok (none, some (b * 10000))
    else .ok (none, none)
  else .ok (none, none)

/-- First maximal run of decimal digits in the list: models
`re.findall(r'\d+', s)[0]` (with `none` when there are no digits). -/
def firstDigitRun : List Char → Option (List Char)
  | [] => none
  | c :: rest =>
    if c.isDigit then some (c :: rest.takeWhile Char.isDigit)
    else firstDigitRun rest

/-- Commute-text normalization, translated from
`MatchingAgent.calculate_matching_score` (lines 203-209 of `agent.py`):
when the text is non-empty and contains `分钟`, the first run of digits
becomes the maximal commute time; otherwise the bound is unset.  This
parse can never raise. -/
def parseCommute (commute : String) : Option ℚ :=
  let cs := commute.toList
  if cs = [] then none
  else if containsPair '分' '钟' cs then
    match firstDigitRun cs with
    | some run => some ((digitsVal run : ℚ))
    | none => none
  else none

/-- Python list-start comparison on characters: does `text` start with `pat`? -/
def lsw (pat text : List Char) : Bool :=
  match pat, text with
  | [], _ => true
  | _ :: _, [] => false
  | p :: ps, t :: ts => p = t && lsw ps ts

/-- Contiguous-substring test on characters (any position). -/
def lcontains (pat text : List Char) : Bool :=
  match text with
  | [] => pat.isEmpty
  | _ :: ts => lsw pat text || lcontains pat ts

/-- Python `sub in s` on strings (contiguous substring containment). -/
def pyIn (sub s : String) : Bool := lcontains sub.toList s.toList

/-- The matching agent: the four criterion weights fixed at construction
(`MatchingAgent.__init__` stores the normalized weights). -/
structure MatchingAgent where
  budget_weight : ℚ
  area_weight : ℚ
  school_weight : ℚ
  commute_weight : ℚ
deriving Repr, DecidableEq

/-- `MatchingAgent.__init__` (lines 28-48 of `agent.py`): weights are
rescaled by their raw sum; a zero raw sum raises `ZeroDivisionError`. -/
def mkMatchingAgent (budget_weight area_weight school_weight commute_weight : ℚ) :
    Except PyErr MatchingAgent :=
  let total_weight := budget_weight + area_weight + school_weight + commute_weight
  match pydiv budget_weight total_weight with
  | .error e => .error e
  | .ok b =>
    match pydiv area_weight total_weight with
    | .error e => .error e
    | .ok a =>
      match pydiv school_weight total_weight with
      | .error e => .error e
      | .ok s =>
        match pydiv commute_weight total_weight with
        | .error e => .error e
        | .ok c => .ok ⟨b, a, s, c⟩

/-- `MatchingAgent.calculate_budget_score` (lines 50-86 of `agent.py`). -/
def calculate_budget_score (property_price : ℚ) (budget_min budget_max : Option ℚ) :
    Except PyErr ℚ :=
  match budget_min, budget_max with
  | none, none => .ok (1/2)
  | some bmin, none =>
    if bmin ≤ property_price then .ok 1
    else
      match pydiv property_price bmin with
      | .error e => .error e
      | .ok q => .ok (max 0 q)
  | none, some bmax =>
    if property_price ≤ bmax then .ok 1
    else
      match pydiv (property_price - bmax) bmax with
      | .error e => .error e
      | .ok q => .ok (max 0 (1 - q))
  | some bmin, some bmax =>
    if bmin ≤ property_price ∧ property_price ≤ bmax then .ok 1
    else if property_price < bmin then
      match pydiv property_price bmin with
      | .error e => .error e
      | .ok q => .ok (max 0 q)
    else
      match pydiv (property_price - bmax) bmax with
      | .error e => .error e
      | .ok q => .ok (max 0 (1 - q))

/-- The fixed adjacency table of `calculate_area_score`
(`area_similarity_map`, lines 107-113 of `agent.py`), as the Python
`dict.get(key, [])`. -/
def area_similarity_map (required_area : String) : List String :=
  if required_area = "朝阳区" then ["海淀区", "东城区"]
  else if required_area = "海淀区" then ["朝阳区", "西城区"]
  else if required_area = "西城区" then ["海淀区", "东城区"]
  else if required_area = "东城区" then ["西城区", "朝阳区"]
  else if required_area = "丰台区" then ["朝阳区", "西城区"]
  else []

/-- `MatchingAgent.calculate_area_score` (lines 88-119 of `agent.py`). -/
def calculate_area_score (property_area required_area : String) : ℚ :=
  if required_area = "" then 1/2
  else if pyIn required_area property_area || pyIn property_area required_area then 1
  else if property_area ∈ area_similarity_map required_area then 7/10
  else 1/5

/-- The fixed quality table of `calculate_school_score`
(`school_quality_map`, lines 139-146 of `agent.py`), as the Python
`dict.get(name, 0.6)`. -/
def school_quality_map (school : String) : ℚ :=
  if school = "北京第二实验小学" then 95/100
  else if school = "中关村第一小学" then 90/100
  else if school = "朝阳实验小学" then 85/100
  else if school = "朝阳外国语学校" then 88/100
  else if school = "丰台第五小学" then 75/100
  else if school = "丰台实验小学" then 78/100
  else 60/100

/-- `MatchingAgent.calculate_school_score` (lines 121-153 of `agent.py`). -/
def calculate_school_score (property_school required_school : String) : ℚ :=
  if required_school = "" then 1/2
  else if pyIn required_school property_school || pyIn property_school required_school then 1
  else max 0 (1 - |school_quality_map property_school - school_quality_map required_school| * 2)

/-- `MatchingAgent.calculate_commute_score` (lines 155-175 of `agent.py`).
The excess ratio `(property_commute - required_commute) / required_commute`
raises `ZeroDivisionError` when `required_commute = 0`. -/
def calculate_commute_score (property_commute : ℚ) (required_commute : Option ℚ) :
    Except PyErr ℚ :=
  match required_commute with
  | none => .ok (max 0 (1 - property_commute / 60))
  | some rc =>
    if property_commute ≤ rc then .ok 1
    else
      match pydiv (property_commute - rc) rc with
      | .error e => .error e
      | .ok excess_ratio => .ok (max 0 (1 - excess_ratio))

/-- The `MatchingScore` pydantic model (lines 9-17 of `agent.py`). -/
structure MatchingScore where
  property_id : String
  total_score : ℚ
  budget_score : ℚ
  area_score : ℚ
  school_score : ℚ
  commute_score : ℚ
  recommendation_reason : String
deriving Repr, DecidableEq

/-- A listing dict as used by the matching agent: each key the code may
access is an optional field (`none` models an absent key). -/
structure PyListing where
  property_id : Option String
  price : Option ℚ
  area : Option String
  school_district : Option String
  commute_time : Option ℚ
  address : Option String
deriving Repr, DecidableEq

/-- The requirements dict: the four raw preference strings the code reads
with `requirements.get(key, "")`. -/
structure PyRequirements where
  budget : Option String
  area : Option String
  school_district : Option String
  commute : Option String
deriving Repr, DecidableEq

/-- The recommendation-reason assembly of `calculate_matching_score`
(lines 236-261 of `agent.py`): threshold phrases per criterion in fixed
order, joined by `，`, with a fallback phrase when no criterion qualifies. -/
def buildReason (budget_score area_score school_score commute_score : ℚ) : String :=
  let reason_parts : List String :=
    (if 0.8 ≤ budget_score then ["价格符合预算"]
     else if 0.6 ≤ budget_score then ["价格基本符合预算"] else []) ++
    (if 0.8 ≤ area_score then ["位置优越"]
     else if 0.6 ≤ area_score then ["位置较好"] else []) ++
    (if 0.8 ≤ school_score then ["学区优质"]
     else if 0.6 ≤ school_score then ["学区不错"] else []) ++
    (if 0.8 ≤ commute_score then ["通勤便利"]
     else if 0.6 ≤ commute_score then ["通勤较为便利"] else [])
  let reason_parts := if reason_parts = [] then ["综合条件一般"] else reason_parts
  String.intercalate "，" reason_parts

/-- `MatchingAgent.calculate_matching_score` (lines 177-271 of `agent.py`):
normalizes the budget and commute texts, reads the listing attributes
(`KeyError` when absent), computes the four criterion scores and the
weighted total, and assembles the `MatchingScore`. -/
def calculate_matching_score (ag : MatchingAgent) (property_info : PyListing)
    (requirements : PyRequirements) : Except PyErr MatchingScore :=
  match parseBudget (requirements.budget.getD "") with
  | .error e => .error e
  | .ok (budget_min, budget_max) =>
    let max_commute_time := parseCommute (requirements.commute.getD "")
    match pyGet property_info.price "price" with
    | .error e => .error e
    | .ok price =>
      match calculate_budget_score price budget_min budget_max with
      | .error e => .error e
      | .ok budget_score =>
        match pyGet property_info.area "area" with
        | .error e => .error e
        | .ok parea =>
          let area_score := calculate_area_score parea (requirements.area.getD "")
          match pyGet property_info.school_district "school_district" with
          | .error e => .error e
          | .ok pschool =>
            let school_score :=
              calculate_school_score pschool (requirements.school_district.getD "")
            match pyGet property_info.commute_time "commute_time" with
            | .error e => .error e
            | .ok pcommute =>
              match calculate_commute_score pcommute max_commute_time with
              | .error e => .error e
              | .ok commute_score =>
                let total_score :=
                  budget_score * ag.budget_weight +
                  area_score * ag.area_weight +
                  school_score * ag.school_weight +
                  commute_score * ag.commute_weight
                match pyGet property_info.property_id "property_id" with
                | .error e => .error e
                | .ok pid =>
                  .ok ⟨pid, total_score, budget_score, area_score, school_score,
                       commute_score,
                       buildReason budget_score area_score school_score commute_score⟩

/-- The `PropertyRecommendation` pydantic model (lines 19-23 of `agent.py`). -/
structure PropertyRecommendation where
  property_info : PyListing
  matching_score : MatchingScore
  rank : ℕ
deriving Repr, DecidableEq

/-- The scoring loop of `recommend_properties` (lines 289-292 of
`agent.py`): score the listings in order; the first raised exception
aborts the whole loop. -/
def scoreAll (ag : MatchingAgent) (properties : List PyListing)
    (requirements : PyRequirements) :
    Except PyErr (List (PyListing × MatchingScore)) :=
  properties.mapM (fun prop =>
    match calculate_matching_score ag prop requirements with
    | .error e => .error e
    | .ok s => .ok (prop, s))

/-- Insertion step of the stable descending sort: the new element goes in
front of the first element whose key is not larger. -/
def pyInsertDesc (key : α → ℚ) (a : α) : List α → List α
  | [] => [a]
  | b :: bs => if key b ≤ key a then a :: b :: bs else b :: pyInsertDesc key a bs

/-- Python `list.sort(key=..., reverse=True)`: a stable sort, descending
in the key, preserving input order between equal keys. -/
def pySortDesc (key : α → ℚ) : List α → List α
  | [] => []
  | a :: as => pyInsertDesc key a (pySortDesc key as)

/-- Python slice `l[:k]` for a possibly negative `k`: a negative stop
counts from the end and clamps at zero. -/
def pySlice (k : ℤ) (l : List α) : List α :=
  if 0 ≤ k then l.take k.toNat else l.take ((l.length : ℤ) + k).toNat

/-- The `enumerate(..., 1)` loop of `recommend_properties` (lines
298-305 of `agent.py`): wrap the scored pairs with 1-based ranks. -/
def addRanks (start : ℕ) : List (PyListing × MatchingScore) → List PropertyRecommendation
  | [] => []
  | (prop, score) :: rest => ⟨prop, score, start⟩ :: addRanks (start + 1) rest

/-- `MatchingAgent.recommend_properties` (lines 273-312 of `agent.py`):
score all listings, sort descending by total score (stable), take the
Python slice `[:top_k]`, assign ranks `1..`; any exception in the loop is
caught and turns the whole result into the empty list. -/
def recommend_properties (ag : MatchingAgent) (properties : List PyListing)
    (requirements : PyRequirements) (top_k : ℤ) : List PropertyRecommendation :=
  match scoreAll ag properties requirements with
  | .error _ => []
  | .ok scored_properties =>
    addRanks 1 (pySlice top_k (pySortDesc (fun x => x.2.total_score) scored_properties))

/-- Round-half-to-even on rationals (the rounding of Python `round`). -/
def roundHalfEven (x : ℚ) : ℤ :=
  let n := Int.floor x
  let r := x - n
  if r < 1/2 then n
  else if 1/2 < r then n + 1
  else if n % 2 = 0 then n else n + 1

/-- Python `round(x, 2)` modelled exactly on rationals. -/
def pyRound2 (x : ℚ) : ℚ := (roundHalfEven (x * 100) : ℚ) / 100

/-- The `top_recommendation` sub-dict of the summary (lines 340-346). -/
structure TopRecommendation where
  property_id : String
  address : String
  price : ℚ
  matching_score : ℚ
  reason : String
deriving Repr, DecidableEq

/-- The `score_breakdown` sub-dict of a summary entry (lines 357-362). -/
structure ScoreBreakdown where
  budget : ℚ
  area : ℚ
  school : ℚ
  commute : ℚ
deriving Repr, DecidableEq

/-- One entry of the summary's `recommendations` list (lines 347-366). -/
structure SummaryEntry where
  rank : ℕ
  property_id : String
  address : String
  price : ℚ
  area : String
  school_district : String
  commute_time : ℚ
  matching_score : ℚ
  score_breakdown : ScoreBreakdown
  reason : String
deriving Repr, DecidableEq

/-- The non-empty summary dict (lines 336-367 of `agent.py`). -/
structure SummaryData where
  total_recommendations : ℕ
  average_matching_score : ℚ
  price_min : ℚ
  price_max : ℚ
  top_recommendation : TopRecommendation
  recommendations : List SummaryEntry
deriving Repr, DecidableEq

/-- Result of `generate_recommendation_summary`: either the "no matches"
message dict or the full summary dict. -/
inductive SummaryResult where
  | noMatch (message : String)
  | summary (data : SummaryData)
deriving Repr, DecidableEq

/-- Helper for Python `min()` / `max()` over a non-empty list of prices. -/
def foldMinMax (p : ℚ) (ps : List ℚ) : ℚ × ℚ :=
  (ps.foldl min p, ps.foldl max p)

/-- One element of the summary's `recommendations` list comprehension
(lines 347-366 of `agent.py`). -/
def mkSummaryEntry (r : PropertyRecommendation) : Except PyErr SummaryEntry :=
  match pyGet r.property_info.property_id "property_id" with
  | .error e => .error e
  | .ok pid =>
    match pyGet r.property_info.address "address" with
    | .error e => .error e
    | .ok addr =>
      match pyGet r.property_info.price "price" with
      | .error e => .error e
      | .ok pr2 =>
        match pyGet r.property_info.area "area" with
        | .error e => .error e
        | .ok ar =>
          match pyGet r.property_info.school_district "school_district" with
          | .error e => .error e
          | .ok sd =>
            match pyGet r.property_info.commute_time "commute_time" with
            | .error e => .error e
            | .ok ct =>
              .ok (SummaryEntry.mk r.rank pid addr pr2 ar sd ct
                (pyRound2 r.matching_score.total_score)
                ⟨pyRound2 r.matching_score.budget_score,
                 pyRound2 r.matching_score.area_score,
                 pyRound2 r.matching_score.school_score,
                 pyRound2 r.matching_score.commute_score⟩
                r.matching_score.recommendation_reason)

/-- `MatchingAgent.generate_recommendation_summary` (lines 314-369 of
`agent.py`): the empty input yields the "no matches" message; otherwise
the summary computes the average score, the price range, the
rank-1 highlight and the per-recommendation entries (dict accesses may
raise `KeyError`, modelled in `Except`). -/
def generate_recommendation_summary (recommendations : List PropertyRecommendation) :
    Except PyErr SummaryResult :=
  match recommendations with
  | [] => .ok (.noMatch "未找到合适的房源推荐")
  | r0 :: rest =>
    let recs := r0 :: rest
    let total_count : ℕ := recs.length
    match pydiv (recs.foldl (fun acc r => acc + r.matching_score.total_score) 0)
        (total_count : ℚ) with
    | .error e => .error e
    | .ok avg_score =>
      match recs.mapM (fun r => pyGet r.property_info.price "price") with
      | .error e => .error e
      | .ok prices =>
        match prices with
        | [] => .error .valueError
        | p :: ps =>
          let pr := foldMinMax p ps
          match pyGet r0.property_info.property_id "property_id" with
          | .error e => .error e
          | .ok pid0 =>
            match pyGet r0.property_info.address "address" with
            | .error e => .error e
            | .ok addr0 =>
              match pyGet r0.property_info.price "price" with
              | .error e => .error e
              | .ok price0 =>
                match recs.mapM mkSummaryEntry with
                | .error e => .error e
                | .ok entries =>
                  .ok (.summary ⟨total_count, pyRound2 avg_score, pr.1, pr.2,
                    ⟨pid0, addr0, price0, pyRound2 r0.matching_score.total_score,
                     r0.matching_score.recommendation_reason⟩,
                    entries⟩)

/-- A matching agent with the constructor inputs `2, 1, 1, 1` (normalized
weights `0.4, 0.2, 0.2, 0.2`), used as a concrete witness instance. -/
def exAgent : MatchingAgent := ⟨2/5, 1/5, 1/5, 1/5⟩

/-- A complete concrete listing. -/
def exListingA : PyListing :=
  ⟨some "P001", some 3000000, some "朝阳区", some "朝阳实验小学", some 30, some "朝阳区某路1号"⟩

/-- A second complete concrete listing whose scores tie with `exListingA`. -/
def exListingB : PyListing :=
  ⟨some "P002", some 3000000, some "朝阳区", some "朝阳实验小学", some 30, some "朝阳区某路2号"⟩

/-- A concrete listing with the `price` key absent. -/
def exListingNoPrice : PyListing :=
  ⟨some "P003", none, some "海淀区", some "中关村第一小学", some 20, some "海淀区某路3号"⟩

/-- A requirements record with every preference field absent. -/
def exReq : PyRequirements := ⟨none, none, none, none⟩

/-- The matching score `exAgent` assigns to `exListingA` under `exReq`. -/
def exScoreA : MatchingScore := ⟨"P001", 1/2, 1/2, 1/2, 1/2, 1/2, "综合条件一般"⟩

/-- The matching score `exAgent` assigns to `exListingB` under `exReq`. -/
def exScoreB : MatchingScore := ⟨"P002", 1/2, 1/2, 1/2, 1/2, 1/2, "综合条件一般"⟩

lemma pydiv_ok {a b q : ℚ} (h : pydiv a b = .ok q) : b ≠ 0 ∧ q = a / b := by
  unfold pydiv at h
  split at h
  · exact absurd h (by simp)
  · refine ⟨by assumption, ?_⟩
    injection h with h2
    exact h2.symm

lemma pyGet_ok {o : Option α} {k : String} {v : α} (h : pyGet o k = .ok v) :
    o = some v := by
  unfold pyGet at h
  match o, h with
  | some w, h => injection h with h; rw [h]

lemma splitOnChar_not_mem (sep : Char) :
    ∀ cs : List Char, ∀ p ∈ splitOnChar sep cs, sep ∉ p := by
  intro cs
  induction cs with
  | nil =>
    intro p hp
    unfold splitOnChar at hp
    simp only [List.mem_singleton] at hp
    subst hp
    simp
  | cons c rest ih =>
    intro p hp
    unfold splitOnChar at hp
    by_cases hc : c = sep
    · simp only [hc, if_pos rfl] at hp
      rcases List.mem_cons.mp hp with hp | hp
      · subst hp; simp
      · exact ih p hp
    · simp only [if_neg hc] at hp
      rcases hr : splitOnChar sep rest with _ | ⟨q, qs⟩
      · rw [hr] at hp
        simp at hp
        simp [hp]
        exact fun h => hc h.symm
      · rw [hr] at hp
        simp at hp
        rcases hp with hp | hp
        · subst hp
          intro hmem
          rcases List.mem_cons.mp hmem with h | h
          · exact hc h.symm
          · exact ih q (hr ▸ List.mem_cons_self q qs) h
        · exact ih p (hr ▸ List.mem_cons_of_mem q hp)

lemma pyStrip_subset {x : Char} {cs : List Char} (h : x ∈ pyStrip cs) : x ∈ cs := by
  unfold pyStrip at h
  rw [List.mem_reverse] at h
  have h1 := (List.dropWhile_sublist (l := (cs.dropWhile Char.isWhitespace).reverse)
    (p := Char.isWhitespace)).subset h
  rw [List.mem_reverse] at h1
  exact (List.dropWhile_sublist (l := cs) (p := Char.isWhitespace)).subset h1

lemma removePair_subset (a b : Char) :
    ∀ cs : List Char, ∀ x ∈ removePair a b cs, x ∈ cs := by
  intro cs
  induction cs using removePair.induct a b with
  | case1 => simp [removePair]
  | case2 c => simp [removePair]
  | case3 c d rest hcd ih =>
    intro x hx
    rw [removePair, if_pos hcd] at hx
    exact List.mem_cons_of_mem c (List.mem_cons_of_mem d (ih x hx))
  | case4 c d rest hcd ih =>
    intro x hx
    rw [removePair, if_neg hcd] at hx
    rcases List.mem_cons.mp hx with h | h
    · exact h ▸ List.mem_cons_self c _
    · exact List.mem_cons_of_mem c (ih x h)

lemma pyfloatCore_nonneg {cs : List Char} {q : ℚ} (h : pyfloatCore cs = some q) :
    0 ≤ q := by
  unfold pyfloatCore at h
  split at h
  · split at h
    · injection h with h; rw [← h]; positivity
    · exact absurd h (by simp)
  · split at h
    · injection h with h; rw [← h]; positivity
    · exact absurd h (by simp)
  · exact absurd h (by simp)

lemma pyfloatList_nonneg {cs : List Char} {q : ℚ} (hno : '-' ∉ cs)
    (h : pyfloatList cs = .ok q) : 0 ≤ q := by
  unfold pyfloatList at h
  have hhead : (pyStrip cs).head? ≠ some '-' := by
    intro hh
    exact hno (pyStrip_subset (List.mem_of_mem_head? hh))
  simp only [beq_eq_false_iff_ne, ne_eq] at h
  have hneg : ((pyStrip cs).head? == some '-') = false := by
    exact beq_eq_false_iff_ne.mpr hhead
  rw [hneg] at h
  simp only [Bool.false_or, if_neg (by simp : ¬(false = true))] at h
  split at h
  · exact absurd h (by simp)
  · injection h with h
    rw [← h]
    exact pyfloatCore_nonneg (by assumption)

lemma parseBudget_nonneg {s : String} {o1 o2 : Option ℚ}
    (h : parseBudget s = .ok (o1, o2)) :
    (∀ x, o1 = some x → 0 ≤ x) ∧ (∀ x, o2 = some x → 0 ≤ x) := by
  simp only [parseBudget] at h
  split at h
  · simp only [Except.ok.injEq, Prod.mk.injEq] at h
    obtain ⟨h1, h2⟩ := h
    subst h1; subst h2
    exact ⟨fun x hx => absurd hx (by simp), fun x hx => absurd hx (by simp)⟩
  · split at h
    · split at h
      · split at h
        next p0 p1 heqsplit =>
          split at h
          · exact absurd h (by simp)
          next a heqa =>
            split at h
            · exact absurd h (by simp)
            next b heqb =>
              simp only [Except.ok.injEq, Prod.mk.injEq] at h
              obtain ⟨h1, h2⟩ := h
              subst h1; subst h2
              have hp0 : '-' ∉ pyStrip p0 := fun hm =>
                splitOnChar_not_mem '-' _ p0 (heqsplit ▸ List.mem_cons_self _ _)
                  (pyStrip_subset hm)
              have hp1 : '-' ∉ pyStrip p1 := fun hm =>
                splitOnChar_not_mem '-' _ p1
                  (heqsplit ▸ List.mem_cons_of_mem _ (List.mem_cons_self _ _))
                  (pyStrip_subset hm)
              have ha := pyfloatList_nonneg hp0 heqa
              have hb := pyfloatList_nonneg hp1 heqb
              constructor
              · intro x hx
                injection hx with hx
                rw [← hx]
                positivity
              · intro x hx
                injection hx with hx
                rw [← hx]
                positivity
        next =>
          simp only [Except.ok.injEq, Prod.mk.injEq] at h
          obtain ⟨h1, h2⟩ := h
          subst h1; subst h2
          exact ⟨fun x hx => absurd hx (by simp), fun x hx => absurd hx (by simp)⟩
      · split at h
        next hnodash hpair =>
          split at h
          · exact absurd h (by simp)
          next b heqb =>
            simp only [Except.ok.injEq, Prod.mk.injEq] at h
            obtain ⟨h1, h2⟩ := h
            subst h1; subst h2
            have hnm : '-' ∉ pyStrip (removePair '以' '内'
                (List.filter (fun c => decide (c ≠ '万')) s.toList)) := fun hm =>
              hnodash (removePair_subset '以' '内' _ '-' (pyStrip_subset hm))
            have hb := pyfloatList_nonneg hnm heqb
            constructor
            · intro x hx
              exact absurd hx (by simp)
            · intro x hx
              injection hx with hx
              rw [← hx]
              positivity
        next =>
          simp only [Except.ok.injEq, Prod.mk.injEq] at h
          obtain ⟨h1, h2⟩ := h
          subst h1; subst h2
          exact ⟨fun x hx => absurd hx (by simp), fun x hx => absurd hx (by simp)⟩
    · simp only [Except.ok.injEq, Prod.mk.injEq] at h
      obtain ⟨h1, h2⟩ := h
      subst h1; subst h2
      exact ⟨fun x hx => absurd hx (by simp), fun x hx => absurd hx (by simp)⟩

lemma parseCommute_nonneg {s : String} {r : ℚ} (h : parseCommute s = some r) :
    0 ≤ r := by
  simp only [parseCommute] at h
  split at h
  · exact absurd h (by simp)
  · split at h
    · split at h
      · injection h with h
        rw [← h]
        positivity
      · exact absurd h (by simp)
    · exact absurd h (by simp)

lemma calculate_budget_score_bounds {price : ℚ} {o1 o2 : Option ℚ}
    (h1 : ∀ x, o1 = some x → 0 ≤ x) (h2 : ∀ x, o2 = some x → 0 ≤ x)
    {q : ℚ} (h : calculate_budget_score price o1 o2 = .ok q) : 0 ≤ q ∧ q ≤ 1 := by
  unfold calculate_budget_score at h
  split at h
  · injection h with h
    constructor <;> rw [← h] <;> norm_num
  · rename_i bmin
    have hmin : 0 ≤ bmin := h1 bmin rfl
    split at h
    · injection h with h
      rw [← h]
      norm_num
    · rename_i hlt
      push_neg at hlt
      split at h
      · exact absurd h (by simp)
      · rename_i v hv
        obtain ⟨hne, hveq⟩ := pydiv_ok hv
        have hposmin : 0 < bmin := lt_of_le_of_ne hmin (Ne.symm hne)
        injection h with h
        rw [← h, hveq]
        constructor
        · exact le_max_left 0 _
        · exact max_le (by norm_num) (le_of_lt ((div_lt_one hposmin).mpr hlt))
  · rename_i bmax
    have hmax : 0 ≤ bmax := h2 bmax rfl
    split at h
    · injection h with h
      rw [← h]
      norm_num
    · rename_i hlt
      push_neg at hlt
      split at h
      · exact absurd h (by simp)
      · rename_i v hv
        obtain ⟨hne, hveq⟩ := pydiv_ok hv
        have hposmax : 0 < bmax := lt_of_le_of_ne hmax (Ne.symm hne)
        injection h with h
        rw [← h, hveq]
        constructor
        · exact le_max_left 0 _
        · refine max_le (by norm_num) ?_
          have : 0 ≤ (price - bmax) / bmax :=
            le_of_lt (div_pos (by linarith) hposmax)
          linarith
  · rename_i bmin bmax
    have hmin : 0 ≤ bmin := h1 bmin rfl
    have hmax : 0 ≤ bmax := h2 bmax rfl
    split at h
    · injection h with h
      rw [← h]
      norm_num
    · rename_i hnotin
      split at h
      · rename_i hlt
        split at h
        · exact absurd h (by simp)
        · rename_i v hv
          obtain ⟨hne, hveq⟩ := pydiv_ok hv
          have hposmin : 0 < bmin := lt_of_le_of_ne hmin (Ne.symm hne)
          injection h with h
          rw [← h, hveq]
          constructor
          · exact le_max_left 0 _
          · exact max_le (by norm_num) (le_of_lt ((div_lt_one hposmin).mpr hlt))
      · rename_i hge
        push_neg at hge
        have habove : bmax < price := by
          push_neg at hnotin
          exact hnotin hge
        split at h
        · exact absurd h (by simp)
        · rename_i v hv
          obtain ⟨hne, hveq⟩ := pydiv_ok hv
          have hposmax : 0 < bmax := lt_of_le_of_ne hmax (Ne.symm hne)
          injection h with h
          rw [← h, hveq]
          constructor
          · exact le_max_left 0 _
          · refine max_le (by norm_num) ?_
            have : 0 ≤ (price - bmax) / bmax :=
              le_of_lt (div_pos (by linarith) hposmax)
            linarith

lemma calculate_area_score_bounds (pa ra : String) :
    0 ≤ calculate_area_score pa ra ∧ calculate_area_score pa ra ≤ 1 := by
  unfold calculate_area_score
  split_ifs <;> norm_num

lemma calculate_school_score_bounds (ps rs : String) :
    0 ≤ calculate_school_score ps rs ∧ calculate_school_score ps rs ≤ 1 := by
  unfold calculate_school_score
  split_ifs
  · norm_num
  · norm_num
  · constructor
    · exact le_max_left 0 _
    · refine max_le (by norm_num) ?_
      have := abs_nonneg (school_quality_map ps - school_quality_map rs)
      linarith

lemma calculate_commute_score_bounds {c : ℚ} {o : Option ℚ} (hc : 0 ≤ c)
    (ho : ∀ r, o = some r → 0 ≤ r)
    {q : ℚ} (h : calculate_commute_score c o = .ok q) : 0 ≤ q ∧ q ≤ 1 := by
  unfold calculate_commute_score at h
  split at h
  · injection h with h
    rw [← h]
    constructor
    · exact le_max_left 0 _
    · refine max_le (by norm_num) ?_
      have : 0 ≤ c / 60 := by positivity
      linarith
  · rename_i rc
    have hrc : 0 ≤ rc := ho rc rfl
    split at h
    · injection h with h
      rw [← h]
      norm_num
    · rename_i hlt
      push_neg at hlt
      split at h
      · exact absurd h (by simp)
      · rename_i v hv
        obtain ⟨hne, hveq⟩ := pydiv_ok hv
        have hpos : 0 < rc := lt_of_le_of_ne hrc (Ne.symm hne)
        injection h with h
        rw [← h, hveq]
        constructor
        · exact le_max_left 0 _
        · refine max_le (by norm_num) ?_
          have : 0 ≤ (c - rc) / rc := le_of_lt (div_pos (by linarith) hpos)
          linarith

lemma weighted_total_bounds {wb wa ws wc b a s c : ℚ}
    (hwb : 0 ≤ wb) (hwa : 0 ≤ wa) (hws : 0 ≤ ws) (hwc : 0 ≤ wc)
    (hsum : wb + wa + ws + wc = 1)
    (hb : 0 ≤ b ∧ b ≤ 1) (ha : 0 ≤ a ∧ a ≤ 1)
    (hs : 0 ≤ s ∧ s ≤ 1) (hc : 0 ≤ c ∧ c ≤ 1) :
    0 ≤ b * wb + a * wa + s * ws + c * wc ∧ b * wb + a * wa + s * ws + c * wc ≤ 1 := by
  constructor
  · have := mul_nonneg hb.1 hwb
    have := mul_nonneg ha.1 hwa
    have := mul_nonneg hs.1 hws
    have := mul_nonneg hc.1 hwc
    linarith
  · have h1 : b * wb ≤ wb := mul_le_of_le_one_left hwb hb.2
    have h2 : a * wa ≤ wa := mul_le_of_le_one_left hwa ha.2
    have h3 : s * ws ≤ ws := mul_le_of_le_one_left hws hs.2
    have h4 : c * wc ≤ wc := mul_le_of_le_one_left hwc hc.2
    linarith

lemma mkMatchingAgent_ok {bw aw sw cw : ℚ} {ag : MatchingAgent}
    (h : mkMatchingAgent bw aw sw cw = .ok ag) :
    bw + aw + sw + cw ≠ 0 ∧
    ag = ⟨bw / (bw + aw + sw + cw), aw / (bw + aw + sw + cw),
          sw / (bw + aw + sw + cw), cw / (bw + aw + sw + cw)⟩ := by
  simp only [mkMatchingAgent] at h
  split at h
  · exact absurd h (by simp)
  · rename_i b hb
    split at h
    · exact absurd h (by simp)
    · rename_i a ha
      split at h
      · exact absurd h (by simp)
      · rename_i s hs
        split at h
        · exact absurd h (by simp)
        · rename_i c hc
          obtain ⟨hne, hbeq⟩ := pydiv_ok hb
          obtain ⟨-, haeq⟩ := pydiv_ok ha
          obtain ⟨-, hseq⟩ := pydiv_ok hs
          obtain ⟨-, hceq⟩ := pydiv_ok hc
          injection h with h
          exact ⟨hne, by rw [← h, hbeq, haeq, hseq, hceq]⟩

/-- C1: for every listing (with its commute time a non-negative duration)
and every preference input, whenever the agent was built by
`MatchingAgent.__init__` from non-negative weights with positive raw sum
and `calculate_matching_score` returns a score record, each of the four
criterion scores (budget, area, school, commute) and the weighted
`total_score` lie in the interval [0, 1]. -/
theorem scores_and_total_in_unit_interval
    (bw aw sw cw : ℚ) (ag : MatchingAgent) (prop : PyListing)
    (req : PyRequirements) (m : MatchingScore)
    (hbw : 0 ≤ bw) (haw : 0 ≤ aw) (hsw : 0 ≤ sw) (hcw : 0 ≤ cw)
    (hpos : 0 < bw + aw + sw + cw)
    (hag : mkMatchingAgent bw aw sw cw = .ok ag)
    (hct : ∀ c, prop.commute_time = some c → 0 ≤ c)
    (hm : calculate_matching_score ag prop req = .ok m) :
    (0 ≤ m.budget_score ∧ m.budget_score ≤ 1) ∧
    (0 ≤ m.area_score ∧ m.area_score ≤ 1) ∧
    (0 ≤ m.school_score ∧ m.school_score ≤ 1) ∧
    (0 ≤ m.commute_score ∧ m.commute_score ≤ 1) ∧
    (0 ≤ m.total_score ∧ m.total_score ≤ 1) := by
  obtain ⟨hne, hageq⟩ := mkMatchingAgent_ok hag
  simp only [calculate_matching_score] at hm
  split at hm
  · exact absurd hm (by simp)
  · rename_i bounds hpb
    obtain ⟨hbmin, hbmax⟩ := parseBudget_nonneg hpb
    split at hm
    · exact absurd hm (by simp)
    · rename_i price hprice
      split at hm
      · exact absurd hm (by simp)
      · rename_i budget_score hbs
        split at hm
        · exact absurd hm (by simp)
        · rename_i parea hparea
          split at hm
          · exact absurd hm (by simp)
          · rename_i pschool hpschool
            split at hm
            · exact absurd hm (by simp)
            · rename_i pcommute hpcommute
              split at hm
              · exact absurd hm (by simp)
              · rename_i commute_score hcs
                split at hm
                · exact absurd hm (by simp)
                · rename_i pid hpid
                  injection hm with hm
                  subst hm
                  have hB := calculate_budget_score_bounds hbmin hbmax hbs
                  have hA := calculate_area_score_bounds parea (req.area.getD "")
                  have hS := calculate_school_score_bounds pschool
                    (req.school_district.getD "")
                  have hC := calculate_commute_score_bounds
                    (hct pcommute (pyGet_ok hpcommute))
                    (fun r hr => parseCommute_nonneg hr) hcs
                  refine ⟨hB, hA, hS, hC, ?_⟩
                  have hw : 0 ≤ bw / (bw + aw + sw + cw) ∧
                      0 ≤ aw / (bw + aw + sw + cw) ∧
                      0 ≤ sw / (bw + aw + sw + cw) ∧
                      0 ≤ cw / (bw + aw + sw + cw) := by
                    refine ⟨?_, ?_, ?_, ?_⟩ <;> positivity
                  have hsum : bw / (bw + aw + sw + cw) + aw / (bw + aw + sw + cw) +
                      sw / (bw + aw + sw + cw) + cw / (bw + aw + sw + cw) = 1 := by
                    field_simp
                  rw [hageq]
                  exact weighted_total_bounds hw.1 hw.2.1 hw.2.2.1 hw.2.2.2 hsum hB hA hS hC

/-- Witness for C1: the hypotheses hold and the bounds follow at the
concrete agent built from weights `2, 1, 1, 1` scoring `exListingA`. -/
theorem scores_and_total_in_unit_interval_witness :
    (0 ≤ exScoreA.budget_score ∧ exScoreA.budget_score ≤ 1) ∧
    (0 ≤ exScoreA.area_score ∧ exScoreA.area_score ≤ 1) ∧
    (0 ≤ exScoreA.school_score ∧ exScoreA.school_score ≤ 1) ∧
    (0 ≤ exScoreA.commute_score ∧ exScoreA.commute_score ≤ 1) ∧
    (0 ≤ exScoreA.total_score ∧ exScoreA.total_score ≤ 1) :=
  scores_and_total_in_unit_interval 2 1 1 1 exAgent exListingA exReq exScoreA
    (by norm_num) (by norm_num) (by norm_num) (by norm_num) (by norm_num)
    (by with_unfolding_all rfl)
    (fun c hc => by
      simp only [exListingA, Option.some.injEq] at hc
      rw [← hc]
      norm_num)
    (by with_unfolding_all rfl)

/-- C2: at `max_minutes = 0` (reachable from the commute text `0分钟`),
`calculate_commute_score` returns 1.0 when `listing_minutes ≤ 0`, but for
any excess it raises `ZeroDivisionError` from the excess-ratio division
instead of returning the score 0.0 the specification requires. -/
theorem commute_zero_cap_divides_by_zero :
    parseCommute "0分钟" = some 0 ∧
    calculate_commute_score 0 (some 0) = .ok 1 ∧
    calculate_commute_score 30 (some 0) = .error .zeroDivisionError := by
  refine ⟨?_, ?_, ?_⟩ <;> with_unfolding_all rfl

/-- C3: the budget normalization is not total: the text `a-b万` matches the
recognized range shape, so `float("a")` raises `ValueError` instead of
degrading to unset bounds; text outside the grammar (no `万` marker) does
degrade to "no constraint", and the commute parse never raises. -/
theorem budget_parse_raises_on_malformed_range :
    parseBudget "a-b万" = .error .valueError ∧
    parseBudget "随便" = .ok (none, none) ∧
    parseCommute "随便" = none := by
  refine ⟨?_, ?_, ?_⟩ <;> with_unfolding_all rfl

lemma pyIn_empty_left (s : String) : pyIn "" s = true := by
  unfold pyIn
  cases h : s.toList with
  | nil => simp [lcontains]
  | cons c ts => simp [lcontains, lsw]

/-- C9: an empty listing-side attribute string is a substring of every
requirement string, so against any non-empty requirement both
`calculate_area_score` and `calculate_school_score` return the full-match
score 1.0 (not the unrelated-area fallback 0.2). -/
theorem empty_listing_string_full_match (req : String) (h : req ≠ "") :
    calculate_area_score "" req = 1 ∧ calculate_school_score "" req = 1 := by
  constructor
  · unfold calculate_area_score
    rw [if_neg h]
    simp [pyIn_empty_left]
  · unfold calculate_school_score
    rw [if_neg h]
    simp [pyIn_empty_left]

/-- Witness for C9 at the concrete requirement `朝阳区`. -/
theorem empty_listing_string_full_match_witness :
    ("朝阳区" ≠ "") ∧
    (calculate_area_score "" "朝阳区" = 1 ∧ calculate_school_score "" "朝阳区" = 1) :=
  ⟨by decide, empty_listing_string_full_match "朝阳区" (by decide)⟩

/-- C10: the adjacency table of `calculate_area_score` is directional, so
the function is not symmetric: a listing in `朝阳区` scores 0.7 against the
requirement `丰台区`, while the swapped pair scores only 0.2. -/
theorem area_score_asymmetric :
    calculate_area_score "朝阳区" "丰台区" = 7/10 ∧
    calculate_area_score "丰台区" "朝阳区" = 1/5 := by
  constructor <;> with_unfolding_all rfl

/-- C8: for any four non-negative constructor weights with positive raw
sum, the normalized weights stored by `MatchingAgent.__init__` sum to
exactly 1. -/
theorem normalized_weights_sum_to_one
    (bw aw sw cw : ℚ) (ag : MatchingAgent)
    (hbw : 0 ≤ bw) (haw : 0 ≤ aw) (hsw : 0 ≤ sw) (hcw : 0 ≤ cw)
    (hpos : 0 < bw + aw + sw + cw)
    (hag : mkMatchingAgent bw aw sw cw = .ok ag) :
    ag.budget_weight + ag.area_weight + ag.school_weight + ag.commute_weight = 1 := by
  obtain ⟨hne, hageq⟩ := mkMatchingAgent_ok hag
  rw [hageq]
  field_simp

/-- Witness for C8: the constructor inputs `2, 1, 1, 1` produce the
normalized weights `0.4, 0.2, 0.2, 0.2`, which sum to 1. -/
theorem normalized_weights_sum_to_one_witness :
    mkMatchingAgent 2 1 1 1 = .ok exAgent ∧
    exAgent.budget_weight = 2/5 ∧ exAgent.area_weight = 1/5 ∧
    exAgent.school_weight = 1/5 ∧ exAgent.commute_weight = 1/5 ∧
    exAgent.budget_weight + exAgent.area_weight + exAgent.school_weight +
      exAgent.commute_weight = 1 :=
  ⟨by with_unfolding_all rfl, by with_unfolding_all rfl, by with_unfolding_all rfl,
   by with_unfolding_all rfl, by with_unfolding_all rfl,
   normalized_weights_sum_to_one 2 1 1 1 exAgent (by norm_num) (by norm_num)
     (by norm_num) (by norm_num) (by norm_num) (by with_unfolding_all rfl)⟩

/-- C7: when the budget normalization sets both bounds and
`budget_min ≤ budget_max`, `calculate_budget_score` is exactly 1.0 on the
closed interval `[budget_min, budget_max]`, and, wherever it returns a
score, it is non-increasing in the price above `budget_max` and
non-decreasing in the price below `budget_min`. -/
theorem budget_score_plateau_and_monotone
    (s : String) (bmin bmax : ℚ)
    (hp : parseBudget s = .ok (some bmin, some bmax))
    (hle : bmin ≤ bmax) :
    (∀ p, bmin ≤ p → p ≤ bmax →
      calculate_budget_score p (some bmin) (some bmax) = .ok 1) ∧
    (∀ p q x y, bmax < p → p ≤ q →
      calculate_budget_score p (some bmin) (some bmax) = .ok x →
      calculate_budget_score q (some bmin) (some bmax) = .ok y → y ≤ x) ∧
    (∀ p q x y, p ≤ q → q < bmin →
      calculate_budget_score p (some bmin) (some bmax) = .ok x →
      calculate_budget_score q (some bmin) (some bmax) = .ok y → x ≤ y) := by
  obtain ⟨hn1, hn2⟩ := parseBudget_nonneg hp
  have hbmin : 0 ≤ bmin := hn1 bmin rfl
  have hbmax : 0 ≤ bmax := hn2 bmax rfl
  refine ⟨?_, ?_, ?_⟩
  · intro p h1 h2
    simp only [calculate_budget_score]
    rw [if_pos ⟨h1, h2⟩]
  · intro p q x y hpab hpq hx hy
    have hqab : bmax < q := lt_of_lt_of_le hpab hpq
    simp only [calculate_budget_score] at hx hy
    rw [if_neg (fun hin => absurd hin.2 (not_le.mpr hpab)),
        if_neg (not_lt.mpr (le_trans hle (le_of_lt hpab)))] at hx
    rw [if_neg (fun hin => absurd hin.2 (not_le.mpr hqab)),
        if_neg (not_lt.mpr (le_trans hle (le_of_lt hqab)))] at hy
    split at hx
    · exact absurd hx (by simp)
    · rename_i vp hvp
      obtain ⟨hne, hvpe⟩ := pydiv_ok hvp
      have hpos : 0 < bmax := lt_of_le_of_ne hbmax (Ne.symm hne)
      split at hy
      · exact absurd hy (by simp)
      · rename_i vq hvq
        obtain ⟨-, hvqe⟩ := pydiv_ok hvq
        injection hx with hx
        injection hy with hy
        rw [← hx, ← hy, hvpe, hvqe]
        refine max_le_max (le_refl 0) ?_
        have : (p - bmax) / bmax ≤ (q - bmax) / bmax :=
          (div_le_div_iff_of_pos_right hpos).mpr (by linarith)
        linarith
  · intro p q x y hpq hqbl hx hy
    have hpbl : p < bmin := lt_of_le_of_lt hpq hqbl
    simp only [calculate_budget_score] at hx hy
    rw [if_neg (fun hin => absurd hin.1 (not_le.mpr hpbl)), if_pos hpbl] at hx
    rw [if_neg (fun hin => absurd hin.1 (not_le.mpr hqbl)), if_pos hqbl] at hy
    split at hx
    · exact absurd hx (by simp)
    · rename_i vp hvp
      obtain ⟨hne, hvpe⟩ := pydiv_ok hvp
      have hpos : 0 < bmin := lt_of_le_of_ne hbmin (Ne.symm hne)
      split at hy
      · exact absurd hy (by simp)
      · rename_i vq hvq
        obtain ⟨-, hvqe⟩ := pydiv_ok hvq
        injection hx with hx
        injection hy with hy
        rw [← hx, ← hy, hvpe, hvqe]
        exact max_le_max (le_refl 0) ((div_le_div_iff_of_pos_right hpos).mpr hpq)

/-- Witness for C7: the budget text `100-200万` sets the bounds to
1,000,000 and 2,000,000, and a price inside the range scores exactly 1. -/
theorem budget_score_plateau_and_monotone_witness :
    parseBudget "100-200万" = .ok (some 1000000, some 2000000) ∧
    (1000000 : ℚ) ≤ 2000000 ∧
    calculate_budget_score 1500000 (some 1000000) (some 2000000) = .ok 1 :=
  ⟨by with_unfolding_all rfl, by norm_num,
   (budget_score_plateau_and_monotone "100-200万" 1000000 2000000
     (by with_unfolding_all rfl) (by norm_num)).1 1500000 (by norm_num) (by norm_num)⟩

lemma mem_pyInsertDesc {key : α → ℚ} {a x : α} :
    ∀ {l : List α}, x ∈ pyInsertDesc key a l → x = a ∨ x ∈ l := by
  intro l
  induction l with
  | nil => intro h; simp [pyInsertDesc] at h; exact Or.inl h
  | cons b bs ih =>
    intro h
    unfold pyInsertDesc at h
    split at h
    · rcases List.mem_cons.mp h with h | h
      · exact Or.inl h
      · exact Or.inr h
    · rcases List.mem_cons.mp h with h | h
      · exact Or.inr (h ▸ List.mem_cons_self b bs)
      · rcases ih h with h | h
        · exact Or.inl h
        · exact Or.inr (List.mem_cons_of_mem b h)

lemma mem_pySortDesc {key : α → ℚ} {x : α} :
    ∀ {l : List α}, x ∈ pySortDesc key l → x ∈ l := by
  intro l
  induction l with
  | nil => intro h; simp [pySortDesc] at h
  | cons a as ih =>
    intro h
    unfold pySortDesc at h
    rcases mem_pyInsertDesc h with h | h
    · exact h ▸ List.mem_cons_self a as
    · exact List.mem_cons_of_mem a (ih h)

lemma pyInsertDesc_pairwise_stable {key : α → ℚ} {t : α → ℕ} {a : α} :
    ∀ {l : List α}, l.Pairwise (fun x y => key x = key y → t x < t y) →
    (∀ b ∈ l, t a < t b) →
    (pyInsertDesc key a l).Pairwise (fun x y => key x = key y → t x < t y) := by
  intro l
  induction l with
  | nil => intro _ _; simp [pyInsertDesc]
  | cons b bs ih =>
    intro hl ha
    obtain ⟨hb, hbs⟩ := List.pairwise_cons.mp hl
    unfold pyInsertDesc
    split
    · exact List.Pairwise.cons (fun x hx _ => ha x hx) hl
    · rename_i hcmp
      refine List.Pairwise.cons ?_ (ih hbs (fun c hc => ha c (List.mem_cons_of_mem b hc)))
      intro x hx hkey
      rcases mem_pyInsertDesc hx with rfl | hx2
      · exact absurd (le_of_eq hkey) hcmp
      · exact hb x hx2 hkey

lemma pySortDesc_pairwise_stable {key : α → ℚ} {t : α → ℕ} :
    ∀ {l : List α}, l.Pairwise (fun x y => t x < t y) →
    (pySortDesc key l).Pairwise (fun x y => key x = key y → t x < t y) := by
  intro l
  induction l with
  | nil => intro _; simp [pySortDesc]
  | cons a as ih =>
    intro hl
    obtain ⟨ha, has⟩ := List.pairwise_cons.mp hl
    exact pyInsertDesc_pairwise_stable (ih has)
      (fun b hb => ha b (mem_pySortDesc hb))

lemma pyInsertDesc_sorted {key : α → ℚ} {a : α} :
    ∀ {l : List α}, l.Pairwise (fun x y => key y ≤ key x) →
    (pyInsertDesc key a l).Pairwise (fun x y => key y ≤ key x) := by
  intro l
  induction l with
  | nil => intro _; simp [pyInsertDesc]
  | cons b bs ih =>
    intro hl
    obtain ⟨hb, hbs⟩ := List.pairwise_cons.mp hl
    unfold pyInsertDesc
    split
    · rename_i hcmp
      refine List.Pairwise.cons ?_ hl
      intro x hx
      rcases List.mem_cons.mp hx with rfl | hx2
      · exact hcmp
      · exact le_trans (hb x hx2) hcmp
    · rename_i hcmp
      refine List.Pairwise.cons ?_ (ih hbs)
      intro x hx
      rcases mem_pyInsertDesc hx with rfl | hx2
      · exact le_of_lt (not_le.mp hcmp)
      · exact hb x hx2

lemma pySortDesc_sorted (key : α → ℚ) :
    ∀ l : List α, (pySortDesc key l).Pairwise (fun x y => key y ≤ key x) := by
  intro l
  induction l with
  | nil => simp [pySortDesc]
  | cons a as ih => exact pyInsertDesc_sorted ih

lemma pyInsertDesc_map_snd (key : β → ℚ) (x : ℕ × β) :
    ∀ l : List (ℕ × β),
      (pyInsertDesc (fun p => key p.2) x l).map Prod.snd =
        pyInsertDesc key x.2 (l.map Prod.snd) := by
  intro l
  induction l with
  | nil => rfl
  | cons b bs ih =>
    unfold pyInsertDesc
    by_cases h : key b.2 ≤ key x.2
    · rw [if_pos h]
      simp only [List.map_cons]
      rw [if_pos h]
    · rw [if_neg h]
      simp only [List.map_cons]
      rw [if_neg h, ih]

lemma pySortDesc_map_snd (key : β → ℚ) :
    ∀ l : List (ℕ × β),
      (pySortDesc (fun p => key p.2) l).map Prod.snd = pySortDesc key (l.map Prod.snd) := by
  intro l
  induction l with
  | nil => rfl
  | cons a as ih =>
    unfold pySortDesc
    simp only [List.map_cons]
    rw [← ih, pyInsertDesc_map_snd]

lemma mem_enumFrom_fst_le :
    ∀ (l : List β) (n : ℕ) (y : ℕ × β), y ∈ List.enumFrom n l → n ≤ y.1 := by
  intro l
  induction l with
  | nil => intro n y h; simp at h
  | cons a as ih =>
    intro n y h
    simp only [List.enumFrom] at h
    rcases List.mem_cons.mp h with h | h
    · rw [h]
    · exact le_trans (Nat.le_succ n) (ih (n + 1) y h)

lemma enumFrom_pairwise_fst_lt (l : List β) :
    ∀ n : ℕ, (List.enumFrom n l).Pairwise (fun x y => x.1 < y.1) := by
  induction l with
  | nil => intro n; simp
  | cons a as ih =>
    intro n
    simp only [List.enumFrom]
    refine List.Pairwise.cons ?_ (ih (n + 1))
    intro y hy
    have := mem_enumFrom_fst_le as (n + 1) y hy
    omega

lemma enum_pairwise_fst_lt (l : List β) :
    l.enum.Pairwise (fun x y => x.1 < y.1) := by
  rw [List.enum]
  exact enumFrom_pairwise_fst_lt l 0

lemma pyInsertDesc_length (key : α → ℚ) (a : α) :
    ∀ l : List α, (pyInsertDesc key a l).length = l.length + 1 := by
  intro l
  induction l with
  | nil => rfl
  | cons b bs ih =>
    unfold pyInsertDesc
    split
    · rfl
    · simp only [List.length_cons, ih]

lemma pySortDesc_length (key : α → ℚ) :
    ∀ l : List α, (pySortDesc key l).length = l.length := by
  intro l
  induction l with
  | nil => rfl
  | cons a as ih =>
    unfold pySortDesc
    rw [pyInsertDesc_length, ih, List.length_cons]

lemma addRanks_get? :
    ∀ (l : List (PyListing × MatchingScore)) (n i : ℕ) (r : PropertyRecommendation),
      (addRanks n l).get? i = some r → r.rank = n + i := by
  intro l
  induction l with
  | nil => intro n i r h; simp [addRanks] at h
  | cons p rest ih =>
    intro n i r h
    match i with
    | 0 =>
      simp only [addRanks, List.get?] at h
      injection h with h
      rw [← h]
      simp
    | i + 1 =>
      simp only [addRanks, List.get?] at h
      have := ih (n + 1) i r h
      omega

lemma addRanks_length :
    ∀ (l : List (PyListing × MatchingScore)) (n : ℕ), (addRanks n l).length = l.length := by
  intro l
  induction l with
  | nil => intro n; rfl
  | cons p rest ih =>
    intro n
    simp only [addRanks, List.length_cons, ih]

lemma recommend_properties_ok {ag : MatchingAgent} {props : List PyListing}
    {req : PyRequirements} {scored : List (PyListing × MatchingScore)} (k : ℤ)
    (hs : scoreAll ag props req = .ok scored) :
    recommend_properties ag props req k =
      addRanks 1 (pySlice k (pySortDesc (fun x => x.2.total_score) scored)) := by
  unfold recommend_properties
  rw [hs]

/-- C5: the ranking is stable and reproducible.  On the scored listing
list (in input order), the sort `recommend_properties` uses is
stable: position-tagged scored entries with equal `total_score` keep
strictly increasing tags after sorting, and untagging that sorted list
gives exactly the sort of the untagged list; the sort is descending in
`total_score`; `recommend_properties` is the rank-assigned Python slice
of that sorted list; re-running ranking and summary on the same inputs
gives identical output; and ranks are assigned `1..N` contiguously. -/
theorem ranking_stable_deterministic_contiguous
    (ag : MatchingAgent) (props : List PyListing) (req : PyRequirements)
    (k : ℤ) (scored : List (PyListing × MatchingScore))
    (hs : scoreAll ag props req = .ok scored) :
    ((pySortDesc (fun p => p.2.2.total_score) scored.enum).Pairwise
      (fun x y => x.2.2.total_score = y.2.2.total_score → x.1 < y.1)) ∧
    ((pySortDesc (fun p => p.2.2.total_score) scored.enum).map Prod.snd =
      pySortDesc (fun x => x.2.total_score) scored) ∧
    ((pySortDesc (fun x => x.2.total_score) scored).Pairwise
      (fun x y => y.2.total_score ≤ x.2.total_score)) ∧
    (recommend_properties ag props req k =
      addRanks 1 (pySlice k (pySortDesc (fun x => x.2.total_score) scored))) ∧
    (recommend_properties ag props req k = recommend_properties ag props req k ∧
      generate_recommendation_summary (recommend_properties ag props req k) =
        generate_recommendation_summary (recommend_properties ag props req k)) ∧
    (∀ i r, (recommend_properties ag props req k).get? i = some r → r.rank = i + 1) := by
  refine ⟨?_, ?_, ?_, ?_, ⟨rfl, rfl⟩, ?_⟩
  · exact pySortDesc_pairwise_stable (t := Prod.fst) (enum_pairwise_fst_lt scored)
  · have h2 := pySortDesc_map_snd
      (fun x : PyListing × MatchingScore => x.2.total_score) scored.enum
    rwa [List.enum_map_snd] at h2
  · exact pySortDesc_sorted _ scored
  · exact recommend_properties_ok k hs
  · intro i r h
    rw [recommend_properties_ok k hs] at h
    have := addRanks_get? _ 1 i r h
    omega

/-- Witness for C5: two listings with tied scores keep their input order
in the recommendation list, with contiguous ranks 1 and 2. -/
theorem ranking_stable_deterministic_contiguous_witness :
    scoreAll exAgent [exListingA, exListingB] exReq =
      .ok [(exListingA, exScoreA), (exListingB, exScoreB)] ∧
    exScoreA.total_score = exScoreB.total_score ∧
    recommend_properties exAgent [exListingA, exListingB] exReq 5 =
      [⟨exListingA, exScoreA, 1⟩, ⟨exListingB, exScoreB, 2⟩] ∧
    recommend_properties exAgent [exListingA, exListingB] exReq 5 =
      addRanks 1 (pySlice 5 (pySortDesc (fun x => x.2.total_score)
        [(exListingA, exScoreA), (exListingB, exScoreB)])) :=
  ⟨by with_unfolding_all rfl, by with_unfolding_all rfl, by with_unfolding_all rfl,
   (ranking_stable_deterministic_contiguous exAgent [exListingA, exListingB] exReq 5
      [(exListingA, exScoreA), (exListingB, exScoreB)]
      (by with_unfolding_all rfl)).2.2.2.1⟩

/-- Counterexample for C4: with a batch of one complete listing (which is
scorable on its own) and one listing missing the `price` key,
`recommend_properties` returns the empty list — the remaining listing is
not ranked and no skipped count is reported anywhere. -/
theorem missing_price_drops_whole_batch :
    recommend_properties exAgent [exListingA, exListingNoPrice] exReq 5 = [] ∧
    calculate_matching_score exAgent exListingA exReq = .ok exScoreA := by
  constructor <;> with_unfolding_all rfl

/-- C4 (amended): when any listing in the batch raises while being scored
(for example a missing required attribute), the exception handler of
`recommend_properties` discards the whole batch and returns the empty
list; no count of skipped listings is reported. -/
theorem scoring_error_empties_recommendations
    (ag : MatchingAgent) (props : List PyListing) (req : PyRequirements)
    (k : ℤ) (e : PyErr) (h : scoreAll ag props req = .error e) :
    recommend_properties ag props req k = [] := by
  unfold recommend_properties
  rw [h]

/-- Witness for the amended C4: the listing without a `price` key makes
the scoring loop raise `KeyError "price"` and the result is empty. -/
theorem scoring_error_empties_recommendations_witness :
    scoreAll exAgent [exListingA, exListingNoPrice] exReq = .error (.keyError "price") ∧
    recommend_properties exAgent [exListingA, exListingNoPrice] exReq 5 = [] :=
  ⟨by with_unfolding_all rfl,
   scoring_error_empties_recommendations exAgent [exListingA, exListingNoPrice] exReq 5
     (.keyError "price") (by with_unfolding_all rfl)⟩

/-- Counterexample for C6: with two candidates and `top_k = -1` (a
non-positive value), `recommend_properties` returns a non-empty result —
the Python slice `[:-1]` keeps the first candidate — refuting the claim
that every `top_k ≤ 0` yields an empty result. -/
theorem negative_top_k_yields_nonempty :
    recommend_properties exAgent [exListingA, exListingB] exReq (-1) =
      [⟨exListingA, exScoreA, 1⟩] ∧
    recommend_properties exAgent [exListingA, exListingB] exReq (-1) ≠ [] := by
  have h1 : recommend_properties exAgent [exListingA, exListingB] exReq (-1) =
      [⟨exListingA, exScoreA, 1⟩] := by with_unfolding_all rfl
  refine ⟨h1, ?_⟩
  rw [h1]
  simp

/-- C6 (amended): `recommend_properties` returns the Python slice
`[:top_k]` of the sorted candidates: for `top_k ≥ 0` the first `top_k`
(all of them, with no padding, when `top_k` exceeds the candidate count),
and `top_k = 0` gives the empty result; but a negative `top_k` is a
from-the-end slice stop, returning the first `length + top_k` candidates
(clamped at zero), which is non-empty whenever `|top_k| <` count. -/
theorem top_k_slice_semantics
    (ag : MatchingAgent) (props : List PyListing) (req : PyRequirements)
    (k : ℤ) (scored : List (PyListing × MatchingScore))
    (hs : scoreAll ag props req = .ok scored) :
    (0 ≤ k → recommend_properties ag props req k =
      addRanks 1 ((pySortDesc (fun x => x.2.total_score) scored).take k.toNat)) ∧
    ((scored.length : ℤ) ≤ k → recommend_properties ag props req k =
      addRanks 1 (pySortDesc (fun x => x.2.total_score) scored)) ∧
    (recommend_properties ag props req 0 = []) ∧
    (k < 0 → recommend_properties ag props req k =
      addRanks 1 ((pySortDesc (fun x => x.2.total_score) scored).take
        ((scored.length : ℤ) + k).toNat)) := by
  refine ⟨?_, ?_, ?_, ?_⟩
  · intro hk
    rw [recommend_properties_ok k hs]
    unfold pySlice
    rw [if_pos hk]
  · intro hk
    have hk0 : 0 ≤ k := le_trans (by positivity) hk
    rw [recommend_properties_ok k hs]
    unfold pySlice
    rw [if_pos hk0]
    congr 1
    apply List.take_of_length_le
    rw [pySortDesc_length]
    omega
  · rw [recommend_properties_ok 0 hs]
    unfold pySlice
    rw [if_pos (le_refl 0)]
    simp [addRanks]
  · intro hk
    rw [recommend_properties_ok k hs]
    unfold pySlice
    rw [if_neg (not_le.mpr hk), pySortDesc_length]

/-- Witness for the amended C6: with two tied candidates, `top_k = 0`
returns the empty list while `top_k = -1` returns the one-element slice. -/
theorem top_k_slice_semantics_witness :
    recommend_properties exAgent [exListingA, exListingB] exReq 0 = [] ∧
    ((-1 : ℤ) < 0 ∧ recommend_properties exAgent [exListingA, exListingB] exReq (-1) =
      addRanks 1 ((pySortDesc (fun x => x.2.total_score)
        [(exListingA, exScoreA), (exListingB, exScoreB)]).take
        ((([(exListingA, exScoreA), (exListingB, exScoreB)].length : ℤ) + -1).toNat))) :=
  ⟨(top_k_slice_semantics exAgent [exListingA, exListingB] exReq 0
      [(exListingA, exScoreA), (exListingB, exScoreB)]
      (by with_unfolding_all rfl)).2.2.1,
   by norm_num,
   (top_k_slice_semantics exAgent [exListingA, exListingB] exReq (-1)
      [(exListingA, exScoreA), (exListingB, exScoreB)]
      (by with_unfolding_all rfl)).2.2.2 (by norm_num)⟩
